import Mathlib

/-!
Verification development for the Job Portal backend (`main.py`, `schemas.py`).

The backend stores job postings, companies and applications in a document
store and exposes HTTP endpoints over them.  The embedding below models
documents as association lists of field values, the MongoDB filter documents
built by `list_jobs` / `list_applications` as a small filter AST, and every
HTTP handler of `main.py` as a Lean function returning `Except HErr _`,
where an `HErr` models a raised `HTTPException`.

The module `database.py` (providing `db`, `create_document`, `get_documents`)
is part of the repository but its source is not available; those operations
are modelled from the specification's Document Store Gateway contract and
are marked `Modelled from the spec:` in their doc comments.
-/

set_option autoImplicit false

namespace JobPortal

/-- Field values a stored document can hold: strings, raw store identifiers
(`ObjectId`, carried as its canonical lowercase-hex string), raw timestamps
(`datetime`, abstracted to a `Nat`), booleans, numbers, lists of strings and
`None`. -/
inductive FVal where
  | vStr (s : String)
  | vOid (hex : String)
  | vDt (t : Nat)
  | vBool (b : Bool)
  | vNat (n : Nat)
  | vList (l : List String)
  | vNull
  deriving DecidableEq, Repr

/-- A document is a Python dict: an association list from field names to
values (keys unique in every document the store produces). -/
abbrev Doc := List (String × FVal)

/-- Models Python `str(...)` on the values that reach it in `main.py`:
`str` of a string is itself, `str(ObjectId)` is the canonical lowercase-hex
form, `str(None)` is `"None"`. The remaining cases never reach `str` in the
source and are given harmless renderings. -/
def pyStr : FVal → String
  | .vStr s => s
  | .vOid h => h
  | .vDt t => toString t
  | .vBool b => cond b "True" "False"
  | .vNat n => toString n
  | .vList l => toString l
  | .vNull => "None"

/-- Models `datetime.isoformat()`: an abstract injective rendering of a raw
timestamp into standardized text. -/
def isoformat (t : Nat) : String := "1970-01-01T00:00:00+" ++ toString t

/-- Python dict assignment `d[k] = v`: replace the value at an existing key,
or append the binding if the key is absent. -/
def setField (d : Doc) (k : String) (v : FVal) : Doc :=
  if d.any (fun kv => kv.1 == k) then
    d.map (fun kv => bif kv.1 == k then (k, v) else kv)
  else
    d ++ [(k, v)]

/-- `main.py` lines 112-113 and 130-131, and line 49: the `_id`
post-processing step — `d["_id"] = str(d["_id"]) if "_id" in d else None`.
It is the whole per-document post-processing of `list_applications` and
`list_companies`. -/
def normalizeIdOnly (d : Doc) : Doc :=
  setField d "_id" (match d.lookup "_id" with
    | some v => .vStr (pyStr v)
    | none => .vNull)

/-- `main.py` lines 50-51: the `posted_at` post-processing step — replace a
raw-`datetime` `posted_at` by its isoformat text, leave anything else. -/
def normPostedAt (d : Doc) : Doc :=
  match d.lookup "posted_at" with
  | some (.vDt t) => setField d "posted_at" (.vStr (isoformat t))
  | _ => d

/-- `main.py` lines 48-51: per-document post-processing in `list_jobs`
(also the body of the success path of `get_job`): `_id` is stringified,
then a raw-`datetime` `posted_at` is rendered as isoformat text. -/
def normalizeJobDoc (d : Doc) : Doc :=
  normPostedAt (normalizeIdOnly d)

/-- Case-insensitive substring containment on character lists. -/
def startsWithChars : List Char → List Char → Bool
  | _, [] => true
  | [], _ :: _ => false
  | h :: hs, p :: ps => h == p && startsWithChars hs ps

/-- Substring containment on character lists. -/
def containsSub : List Char → List Char → Bool
  | [], ps => ps.isEmpty
  | h :: t, ps => startsWithChars (h :: t) ps || containsSub t ps

/-- Case-insensitive substring containment: how a MongoDB
`$regex` with option `i` behaves on a pattern free of regex
metacharacters. -/
def ciContains (hay pat : String) : Bool :=
  containsSub (hay.data.map Char.toLower) (pat.data.map Char.toLower)

/-- The regex metacharacters of PCRE; the substring reading of `$regex` is
faithful exactly when the pattern avoids them. -/
def regexMetaChars : List Char :=
  ['.', '^', '$', '*', '+', '?', '(', ')', '[', ']', '\x7b', '\x7d', '|', '\\']

/-- A pattern free of regex metacharacters, for which `$regex` with option
`i` means case-insensitive substring containment. -/
def noRegexMeta (s : String) : Bool :=
  s.data.all (fun c => !(regexMetaChars.contains c))

/-- Models `bson.ObjectId(s)` parsing: a string parses iff it is exactly 24
hexadecimal characters; the parsed identifier is the lowercase-hex
canonical form. A failing parse raises `InvalidId` in the source. -/
def parseObjectId (s : String) : Option String :=
  if s.length == 24 && s.data.all (fun c => c.isDigit || ('a' ≤ c && c ≤ 'f') || ('A' ≤ c && c ≤ 'F')) then
    some (String.mk (s.data.map Char.toLower))
  else
    none

/-- A condition a Mongo filter attaches to one field: direct equality with a
boolean or a string, `$regex` with option `i`, or `$in` with a value list.
These are the only shapes `main.py` constructs. -/
inductive SCond where
  | sBool (b : Bool)
  | sStr (s : String)
  | sRegexCI (pat : String)
  | sIn (vals : List String)
  deriving DecidableEq, Repr

/-- A top-level entry of a Mongo filter document: a field condition, or a
`$or` of single-field conditions (the only `$or` shape `main.py` builds). -/
inductive MEntry where
  | field (key : String) (c : SCond)
  | orC (subs : List (String × SCond))
  deriving DecidableEq, Repr

/-- A Mongo filter document, as the entries of the Python dict. -/
abbrev MongoFilter := List MEntry

/-- Modelled from the spec: evaluation of one field condition against a
document, following MongoDB query semantics as the spec's Gateway contract
describes them — equality is exact; `$regex` with option `i` and a
metacharacter-free pattern is case-insensitive substring containment, and on
an array field it matches when any element matches; `$in` on an array field
matches when any element is among the given values. A missing field matches
nothing. -/
def evalSCond (d : Doc) (key : String) (c : SCond) : Bool :=
  match c, d.lookup key with
  | .sBool b, some (.vBool b') => b == b'
  | .sStr s, some (.vStr s') => s == s'
  | .sRegexCI p, some (.vStr s) => ciContains s p
  | .sRegexCI p, some (.vList l) => l.any (fun s => ciContains s p)
  | .sIn vs, some (.vStr s) => vs.contains s
  | .sIn vs, some (.vList l) => l.any (fun s => vs.contains s)
  | _, _ => false

/-- Evaluation of one top-level filter entry: a `$or` entry holds when at
least one branch holds. -/
def evalEntry (d : Doc) : MEntry → Bool
  | .field k c => evalSCond d k c
  | .orC subs => subs.any (fun kc => evalSCond d kc.1 kc.2)

/-- A document matches a filter when every top-level entry holds (Mongo
conjoins the keys of a filter document). -/
def matchesFilter (d : Doc) (f : MongoFilter) : Bool :=
  f.all (fun e => evalEntry d e)

deriving instance DecidableEq for Except

/-- The connected database: the three collections in insertion order, a
name, a counter for fresh store-assigned identifiers, and the outcome the
driver call `list_collection_names()` would have (an `Except` so that the
model can also represent that call raising). -/
structure DBConn where
  name : String
  job : List Doc
  application : List Doc
  company : List Doc
  fresh : Nat
  listCollectionsResult : Except String (List String)
  deriving DecidableEq, Repr

/-- The process-wide state `main.py` sees: the module-level `db`, which is
`None` when the storage connection was not configured at startup. -/
structure AppState where
  db : Option DBConn
  deriving DecidableEq, Repr

/-- A raised `HTTPException`: status code and detail message. -/
structure HErr where
  status : Nat
  detail : String
  deriving DecidableEq, Repr

/-- The fixed error every handler raises when `db is None`. -/
def dbNotConfigured : HErr := ⟨500, "Database not configured"⟩

/-- Modelled from the spec: `get_documents` lives in `database.py`, which is
not among the available sources. Per the Gateway contract, `find(collection,
predicate, limit)` returns up to `limit` matching documents in
storage-default (insertion) order, and no matches yield an empty sequence,
not an error. -/
def get_documents (coll : List Doc) (f : MongoFilter) (limit : Nat) : List Doc :=
  (coll.filter (fun d => matchesFilter d f)).take limit

/-- A fresh store-assigned identifier rendered as 24 lowercase hex
characters. -/
def oidOfNat (n : Nat) : String :=
  let ds := Nat.toDigits 16 n
  String.mk (List.replicate (24 - ds.length) '0' ++ ds)

/-- Modelled from the spec: `create_document` lives in `database.py`, which
is not among the available sources. Per the Gateway contract,
`insert(collection, document)` stores the document and returns its assigned
unique identifier as a string. The model appends the document, stamped with
a fresh `_id`, to the collection. -/
def create_document (coll : List Doc) (d : Doc) (fresh : Nat) :
    String × List Doc :=
  let oid := oidOfNat fresh
  (oid, coll ++ [setField d "_id" (.vOid oid)])

/-- Models pymongo `collection.find_one(filter)`: the first stored document
matching the filter, here specialised to the `filter({"_id": ObjectId})`
lookup `main.py` performs. -/
def find_one_by_oid (coll : List Doc) (oid : String) : Option Doc :=
  coll.find? (fun d => d.lookup "_id" == some (.vOid oid))

/-- The `location` entry of the jobs filter: present exactly when the
parameter is truthy (`if location:` — not `None` and not empty). -/
def locSeg : Option String → MongoFilter
  | some l => if l == "" then [] else [.field "location" (.sRegexCI l)]
  | none => []

/-- The `tags` entry of the jobs filter: `{"$in": [tag]}` when truthy. -/
def tagSeg : Option String → MongoFilter
  | some t => if t == "" then [] else [.field "tags" (.sIn [t])]
  | none => []

/-- The `$or` entry of the jobs filter: when `q` is truthy, a disjunction of
case-insensitive `$regex` conditions over title, company_name, description
and tags. -/
def qSeg : Option String → MongoFilter
  | some s =>
      if s == "" then []
      else [.orC [("title", .sRegexCI s), ("company_name", .sRegexCI s),
                  ("description", .sRegexCI s), ("tags", .sRegexCI s)]]
  | none => []

/-- `main.py` lines 33-44: the filter dict `list_jobs` builds — always
`{"is_active": True}`, then the location, tag and q entries when the
corresponding query parameter is truthy. -/
def buildJobsFilter (q location tag : Option String) : MongoFilter :=
  [.field "is_active" (.sBool true)] ++ locSeg location ++ tagSeg tag ++ qSeg q

/-- `main.py` lines 108-110: the filter dict `list_applications` builds —
empty, plus an exact `job_id` equality when the parameter is truthy. -/
def buildApplicationsFilter : Option String → MongoFilter
  | some j => if j == "" then [] else [.field "job_id" (.sStr j)]
  | none => []

/-- `GET /jobs` (`main.py` lines 28-52): fail fast when `db` is `None`,
otherwise find up to `limit` jobs matching the built filter and post-process
each one. -/
def list_jobs (st : AppState) (q location tag : Option String) (limit : Nat) :
    Except HErr (List Doc) :=
  match st.db with
  | none => .error dbNotConfigured
  | some db =>
      let jobs := get_documents db.job (buildJobsFilter q location tag) limit
      .ok (jobs.map normalizeJobDoc)

/-- `POST /jobs` (`main.py` lines 56-64): fail fast when `db` is `None`;
default `posted_at` to the current time when absent or falsy; insert. `now`
stands for `datetime.utcnow()`. -/
def create_job (st : AppState) (jobData : Doc) (now : Nat) :
    Except HErr String × AppState :=
  match st.db with
  | none => (.error dbNotConfigured, st)
  | some db =>
      let data :=
        match jobData.lookup "posted_at" with
        | some (.vDt _) => jobData
        | _ => setField jobData "posted_at" (.vDt now)
      let (jobId, job') := create_document db.job data db.fresh
      (.ok jobId, ⟨some { db with job := job', fresh := db.fresh + 1 }⟩)

/-- Python exceptions that can arise inside the `try` blocks of `get_job`
and `submit_application`: a raised `HTTPException`, or `bson`'s `InvalidId`
from `ObjectId(s)` on a malformed string. FastAPI's `HTTPException` is a
subclass of `Exception`, so a bare `except Exception:` catches both. -/
inductive PyExc where
  | httpExc (status : Nat) (detail : String)
  | invalidIdExc
  deriving DecidableEq, Repr

/-- The `try` block of `GET /jobs/{job_id}` (`main.py` lines 73-80):
`ObjectId(job_id)` (raising `InvalidId` on a malformed id), `find_one`,
a raised 404 when no document, else the normalized document. -/
def get_job_try (db : DBConn) (job_id : String) : Except PyExc Doc :=
  match parseObjectId job_id with
  | none => .error .invalidIdExc
  | some oid =>
      match find_one_by_oid db.job oid with
      | none => .error (.httpExc 404 "Job not found")
      | some doc => .ok (normalizeJobDoc doc)

/-- `GET /jobs/{job_id}` (`main.py` lines 68-82): fail fast when `db` is
`None`; run the `try` block; `except Exception:` turns EVERY exception from
the block — including the `HTTPException(404)` raised inside it — into a
400 "Invalid job id". -/
def get_job (st : AppState) (job_id : String) : Except HErr Doc :=
  match st.db with
  | none => .error dbNotConfigured
  | some db =>
      match get_job_try db job_id with
      | .ok doc => .ok doc
      | .error _ => .error ⟨400, "Invalid job id"⟩

/-- An application submission, mirroring `schemas.Application`. -/
structure ApplicationIn where
  job_id : String
  job_title : String
  company_name : String
  name : String
  email : String
  resume_url : Option String
  cover_letter : Option String
  status : String
  deriving DecidableEq, Repr

/-- The stored form of an application document, field for field. -/
def appToDoc (a : ApplicationIn) : Doc :=
  [("job_id", .vStr a.job_id), ("job_title", .vStr a.job_title),
   ("company_name", .vStr a.company_name), ("name", .vStr a.name),
   ("email", .vStr a.email),
   ("resume_url", match a.resume_url with | some s => .vStr s | none => .vNull),
   ("cover_letter", match a.cover_letter with | some s => .vStr s | none => .vNull),
   ("status", .vStr a.status)]

/-- The `try` block of `POST /applications` (`main.py` lines 92-95):
`ObjectId(apply.job_id)`, `find_one`, a raised 404 when the job is absent.
-/
def submit_application_try (db : DBConn) (job_id : String) : Except PyExc Unit :=
  match parseObjectId job_id with
  | none => .error .invalidIdExc
  | some oid =>
      match find_one_by_oid db.job oid with
      | none => .error (.httpExc 404 "Job not found")
      | some _ => .ok ()

/-- `POST /applications` (`main.py` lines 86-100): fail fast when `db` is
`None`; run the existence check, whose every exception — including the
internal 404 — becomes a 400 "Invalid job id" via `except Exception:`; only
on success insert the application. The returned state is unchanged on every
error path. -/
def submit_application (st : AppState) (a : ApplicationIn) :
    Except HErr String × AppState :=
  match st.db with
  | none => (.error dbNotConfigured, st)
  | some db =>
      match submit_application_try db a.job_id with
      | .error _ => (.error ⟨400, "Invalid job id"⟩, st)
      | .ok _ =>
          let (appId, app') := create_document db.application (appToDoc a) db.fresh
          (.ok appId, ⟨some { db with application := app', fresh := db.fresh + 1 }⟩)

/-- `GET /applications` (`main.py` lines 104-114): fail fast when `db` is
`None`; find up to `limit` applications matching the optional exact
`job_id` filter; stringify each `_id`. -/
def list_applications (st : AppState) (job_id : Option String) (limit : Nat) :
    Except HErr (List Doc) :=
  match st.db with
  | none => .error dbNotConfigured
  | some db =>
      let apps := get_documents db.application (buildApplicationsFilter job_id) limit
      .ok (apps.map normalizeIdOnly)

/-- `POST /companies` (`main.py` lines 118-123): fail fast when `db` is
`None`; insert. -/
def create_company (st : AppState) (companyData : Doc) :
    Except HErr String × AppState :=
  match st.db with
  | none => (.error dbNotConfigured, st)
  | some db =>
      let (compId, comp') := create_document db.company companyData db.fresh
      (.ok compId, ⟨some { db with company := comp', fresh := db.fresh + 1 }⟩)

/-- `GET /companies` (`main.py` lines 125-132): fail fast when `db` is
`None`; find with the empty filter; stringify each `_id`. -/
def list_companies (st : AppState) (limit : Nat) : Except HErr (List Doc) :=
  match st.db with
  | none => .error dbNotConfigured
  | some db =>
      let comps := get_documents db.company [] limit
      .ok (comps.map normalizeIdOnly)

/-- The response dict of `GET /test`. -/
structure TestResponse where
  backend : String
  database : String
  database_url : Option String
  database_name : Option String
  connection_status : String
  collections : List String
  deriving DecidableEq, Repr

/-- `GET /test` (`main.py` lines 135-169): builds a diagnostic response.
Every failure path is inside a `try`: the inner `try` catches a raising
`list_collection_names()` and renders it as a truncated error string; the
outer `try` has no other raising operation, so the handler always returns
the response dict (HTTP 200), never an error. The two `os.getenv` checks
overwrite `database_url` and `database_name` unconditionally at the end. -/
def test_database (st : AppState) (envUrl envName : Bool) :
    Except HErr TestResponse :=
  let response0 : TestResponse :=
    { backend := "✅ Running", database := "❌ Not Available",
      database_url := none, database_name := none,
      connection_status := "Not Connected", collections := [] }
  let response1 :=
    match st.db with
    | some db =>
        let r := { response0 with
          database := "✅ Available", database_url := some "✅ Configured",
          database_name := some db.name, connection_status := "Connected" }
        match db.listCollectionsResult with
        | .ok cols =>
            { r with collections := cols.take 10,
                     database := "✅ Connected & Working" }
        | .error e =>
            { r with database :=
                "⚠️  Connected but Error: " ++ String.mk (e.data.take 50) }
    | none => { response0 with database := "⚠️  Available but not initialized" }
  .ok { response1 with
        database_url := some (if envUrl then "✅ Set" else "❌ Not Set"),
        database_name := some (if envName then "✅ Set" else "❌ Not Set") }

/-- Whether a handler outcome is a success (an HTTP 200 with a body) rather
than a raised `HTTPException`. -/
def exceptOk {α : Type} : Except HErr α → Bool
  | .ok _ => true
  | .error _ => false

/-- The response of a successful diagnostic outcome (a stand-in record for
an error outcome, which `test_database` never produces). -/
def testRespOf : Except HErr TestResponse → TestResponse
  | .ok r => r
  | .error _ =>
      { backend := "", database := "", database_url := none,
        database_name := none, connection_status := "", collections := [] }

/-- The keys of a document. -/
def docKeys (d : Doc) : List String := d.map Prod.fst

/-- An entry that holds no raw timestamp. -/
def noDtEntry (kv : String × FVal) : Bool :=
  match kv.2 with | .vDt _ => false | _ => true

/-- An entry whose raw timestamp, if any, sits under `posted_at`. -/
def dtOnlyPosted (kv : String × FVal) : Bool :=
  match kv.2 with | .vDt _ => kv.1 == "posted_at" | _ => true

/-- A raw store-assigned identifier under `_id`. -/
def hasRawId (d : Doc) : Bool :=
  match d.lookup "_id" with | some (.vOid _) => true | _ => false

/-- A well-formed stored job document: unique keys (it came from a Python
dict), a store-assigned raw `_id`, and raw timestamps at most under
`posted_at` (the only `datetime`-typed field of `schemas.Job`). -/
def jobWFb (d : Doc) : Bool :=
  (docKeys d).Nodup && hasRawId d && d.all dtOnlyPosted

/-- A well-formed stored application or company document: unique keys, a
store-assigned raw `_id`, and no raw timestamps (`schemas.Application` and
`schemas.Company` have no `datetime` field). -/
def flatWFb (d : Doc) : Bool :=
  (docKeys d).Nodup && hasRawId d && d.all noDtEntry

/-- Every stored document is well formed: what the store produces, since
every document was inserted from a validated Pydantic model and stamped
with an `ObjectId`. -/
def storeWF (db : DBConn) : Bool :=
  db.job.all jobWFb && db.application.all flatWFb && db.company.all flatWFb

/-- A fully normalized outbound document: `_id` is a string and no field
holds a raw timestamp. -/
def goodDoc (d : Doc) : Bool :=
  (match d.lookup "_id" with | some (.vStr _) => true | _ => false) &&
  d.all noDtEntry

/-- A typed job record mirroring `schemas.Job` plus its store-assigned
identifier. -/
structure JobRec where
  oid : String
  title : String
  company_id : Option String
  company_name : String
  location : String
  employment_type : String
  salary_min : Option Nat
  salary_max : Option Nat
  description : String
  requirements : List String
  tags : List String
  is_active : Bool
  posted_at : Option Nat
  deriving DecidableEq, Repr

/-- An optional string field as stored. -/
def optStrVal : Option String → FVal
  | some s => .vStr s
  | none => .vNull

/-- An optional numeric field as stored. -/
def optNatVal : Option Nat → FVal
  | some n => .vNat n
  | none => .vNull

/-- An optional timestamp field as stored. -/
def optDtVal : Option Nat → FVal
  | some t => .vDt t
  | none => .vNull

/-- The stored document of a typed job record, field for field after
`schemas.Job`. -/
def jobToDoc (j : JobRec) : Doc :=
  [("_id", .vOid j.oid), ("title", .vStr j.title),
   ("company_id", optStrVal j.company_id),
   ("company_name", .vStr j.company_name), ("location", .vStr j.location),
   ("employment_type", .vStr j.employment_type),
   ("salary_min", optNatVal j.salary_min),
   ("salary_max", optNatVal j.salary_max),
   ("description", .vStr j.description),
   ("requirements", .vList j.requirements), ("tags", .vList j.tags),
   ("is_active", .vBool j.is_active), ("posted_at", optDtVal j.posted_at)]

/-- A concrete active job record used by witnesses. -/
def sampleJobRec : JobRec :=
  { oid := "5f0123456789abcdef012345", title := "Backend Engineer",
    company_id := none, company_name := "Acme", location := "Berlin, Germany",
    employment_type := "full-time", salary_min := some 50000,
    salary_max := some 70000, description := "Build backend services",
    requirements := ["Python"], tags := ["python", "backend"],
    is_active := true, posted_at := some 100 }

/-- The stored document of the sample job. -/
def sampleJobDoc : Doc := jobToDoc sampleJobRec

/-- A concrete connected database holding the sample job. -/
def sampleDB : DBConn :=
  { name := "jobportal", job := [sampleJobDoc], application := [],
    company := [], fresh := 0, listCollectionsResult := .ok ["job"] }

/-- The application state whose storage is configured with `sampleDB`. -/
def sampleSt : AppState := ⟨some sampleDB⟩

/-- The application state whose storage was never configured. -/
def stNone : AppState := ⟨none⟩

/-- A database whose `list_collection_names()` raises. -/
def errDB : DBConn := { sampleDB with listCollectionsResult := .error "boom" }

/-- The application state whose collection listing raises. -/
def stErrList : AppState := ⟨some errDB⟩

/-- A concrete application whose `job_id` is well formed (24 hex
characters) but assigned to no stored job. -/
def sampleApplication : ApplicationIn :=
  { job_id := "ffffffffffffffffffffffff", job_title := "Backend Engineer",
    company_name := "Acme", name := "Ada Lovelace", email := "ada@example.com",
    resume_url := none, cover_letter := none, status := "submitted" }

theorem lookup_not_any (d : Doc) (k : String)
    (h : d.any (fun kv => kv.1 == k) = false) : d.lookup k = none := by
  induction d with
  | nil => rfl
  | cons hd tl ih =>
      cases hd with
      | mk k1 v1 =>
          simp only [List.any_cons, Bool.or_eq_false_iff] at h
          have hk : (k == k1) = false := by
            simp only [beq_eq_false_iff_ne] at h ⊢
            exact fun e => h.1 e.symm
          simp only [List.lookup_cons, hk]
          exact ih h.2

theorem lookup_map_replace (d : Doc) (k : String) (v : FVal)
    (h : d.any (fun kv => kv.1 == k) = true) :
    (d.map (fun kv => bif kv.1 == k then (k, v) else kv)).lookup k = some v := by
  induction d with
  | nil => simp at h
  | cons hd tl ih =>
      cases hd with
      | mk k1 v1 =>
          simp only [List.any_cons, Bool.or_eq_true] at h
          by_cases hk : k1 = k
          · simp only [List.map_cons, hk, beq_self_eq_true, cond_true,
              List.lookup_cons]
          · have hk1 : (k1 == k) = false := by simp [hk]
            have hk2 : (k == k1) = false := by
              simp only [beq_eq_false_iff_ne]
              exact fun e => hk e.symm
            simp only [List.map_cons, hk1, cond_false, List.lookup_cons, hk2]
            rcases h with h1 | h2
            · exact absurd h1 (by simp [hk1])
            · exact ih h2

theorem lookup_append_absent (d : Doc) (k : String) (v : FVal)
    (h : d.any (fun kv => kv.1 == k) = false) :
    (d ++ [(k, v)]).lookup k = some v := by
  induction d with
  | nil => simp [List.lookup_cons]
  | cons hd tl ih =>
      cases hd with
      | mk k1 v1 =>
          simp only [List.any_cons, Bool.or_eq_false_iff] at h
          have hk : (k == k1) = false := by
            simp only [beq_eq_false_iff_ne] at h ⊢
            exact fun e => h.1 e.symm
          simp only [List.cons_append, List.lookup_cons, hk]
          exact ih h.2

theorem lookup_setField_self (d : Doc) (k : String) (v : FVal) :
    (setField d k v).lookup k = some v := by
  unfold setField
  by_cases hp : d.any (fun kv => kv.1 == k) = true
  · rw [if_pos hp]
    exact lookup_map_replace d k v hp
  · rw [if_neg hp]
    refine lookup_append_absent d k v ?_
    cases hb : d.any (fun kv => kv.1 == k)
    · rfl
    · exact absurd hb hp

theorem lookup_map_replace_ne (d : Doc) (k k' : String) (v : FVal)
    (h : k' ≠ k) :
    (d.map (fun kv => bif kv.1 == k then (k, v) else kv)).lookup k' =
      d.lookup k' := by
  induction d with
  | nil => rfl
  | cons hd tl ih =>
      cases hd with
      | mk k1 v1 =>
          by_cases hk : k1 = k
          · have hh : (k' == k) = false := by simp [h]
            simp only [List.map_cons, hk, beq_self_eq_true, cond_true,
              List.lookup_cons, hh]
            exact ih
          · have hk1 : (k1 == k) = false := by simp [hk]
            simp only [List.map_cons, hk1, cond_false, List.lookup_cons]
            cases hkk : k' == k1
            · exact ih
            · rfl

theorem lookup_append_single_ne (d : Doc) (k k' : String) (v : FVal)
    (h : k' ≠ k) : (d ++ [(k, v)]).lookup k' = d.lookup k' := by
  induction d with
  | nil =>
      have hh : (k' == k) = false := by simp [h]
      simp [List.lookup_cons, hh]
  | cons hd tl ih =>
      cases hd with
      | mk k1 v1 =>
          simp only [List.cons_append, List.lookup_cons]
          cases hkk : k' == k1
          · exact ih
          · rfl

theorem lookup_setField_ne (d : Doc) (k k' : String) (v : FVal)
    (h : k' ≠ k) : (setField d k v).lookup k' = d.lookup k' := by
  unfold setField
  by_cases hp : d.any (fun kv => kv.1 == k) = true
  · rw [if_pos hp]
    exact lookup_map_replace_ne d k k' v h
  · rw [if_neg hp]
    exact lookup_append_single_ne d k k' v h

theorem mem_setField (d : Doc) (k : String) (v : FVal) (kv : String × FVal)
    (h : kv ∈ setField d k v) :
    kv = (k, v) ∨ (kv ∈ d ∧ kv.1 ≠ k) := by
  unfold setField at h
  by_cases hp : d.any (fun kv => kv.1 == k) = true
  · rw [if_pos hp] at h
    rcases List.mem_map.mp h with ⟨kv0, hkv0, heq⟩
    by_cases hk : kv0.1 = k
    · left
      rw [← heq]
      simp [hk]
    · right
      have hk1 : (kv0.1 == k) = false := by simp [hk]
      rw [← heq]
      simp only [hk1, cond_false]
      exact ⟨hkv0, hk⟩
  · rw [if_neg hp] at h
    rcases List.mem_append.mp h with h1 | h2
    · right
      refine ⟨h1, ?_⟩
      intro hke
      have : d.any (fun kv => kv.1 == k) = true :=
        List.any_eq_true.mpr ⟨kv, h1, by simp [hke]⟩
      exact hp this
    · left
      simpa using h2

theorem lookup_mem_nodup (d : Doc) (kv : String × FVal)
    (hnd : (docKeys d).Nodup) (hm : kv ∈ d) : d.lookup kv.1 = some kv.2 := by
  induction d with
  | nil => cases hm
  | cons hd tl ih =>
      cases hd with
      | mk k1 v1 =>
          simp only [docKeys, List.map_cons, List.nodup_cons] at hnd
          rcases List.mem_cons.mp hm with h1 | h2
          · rw [h1]
            simp [List.lookup_cons]
          · have hne : (kv.1 == k1) = false := by
              simp only [beq_eq_false_iff_ne]
              intro he
              exact hnd.1 (he ▸ List.mem_map.mpr ⟨kv, h2, rfl⟩)
            simp only [List.lookup_cons, hne]
            exact ih hnd.2 h2

theorem any_key_of_lookup (d : Doc) (k : String) (v : FVal)
    (h : d.lookup k = some v) : d.any (fun kv => kv.1 == k) = true := by
  cases hb : d.any (fun kv => kv.1 == k)
  · rw [lookup_not_any d k hb] at h
    cases h
  · rfl

theorem setField_eq_of_lookup (d : Doc) (k : String) (v : FVal)
    (hnd : (docKeys d).Nodup) (h : d.lookup k = some v) :
    setField d k v = d := by
  unfold setField
  rw [if_pos (any_key_of_lookup d k v h)]
  have : ∀ kv ∈ d, (bif kv.1 == k then (k, v) else kv) = kv := by
    intro kv hm
    cases hkk : kv.1 == k
    · rfl
    · have hk : kv.1 = k := by simpa using hkk
      have := lookup_mem_nodup d kv hnd hm
      rw [hk, h] at this
      have hv : kv.2 = v := by injection this.symm
      simp only [cond_true]
      rw [← hk, ← hv]
  calc d.map (fun kv => bif kv.1 == k then (k, v) else kv)
      = d.map id := List.map_congr_left this
    _ = d := List.map_id d

theorem docKeys_setField (d : Doc) (k : String) (v : FVal) :
    docKeys (setField d k v) = docKeys d ∨
      docKeys (setField d k v) = docKeys d ++ [k] := by
  unfold setField
  by_cases hp : d.any (fun kv => kv.1 == k) = true
  · left
    rw [if_pos hp]
    unfold docKeys
    rw [List.map_map]
    refine List.map_congr_left ?_
    intro kv _
    simp only [Function.comp_apply]
    cases hkk : kv.1 == k
    · rfl
    · have hk : kv.1 = k := by simpa using hkk
      simp [hk]
  · right
    rw [if_neg hp]
    simp [docKeys]

theorem not_mem_keys_of_not_any (d : Doc) (k : String)
    (h : d.any (fun kv => kv.1 == k) = false) : k ∉ docKeys d := by
  intro hmem
  rcases List.mem_map.mp hmem with ⟨kv, hkv, hk⟩
  have : d.any (fun kv => kv.1 == k) = true :=
    List.any_eq_true.mpr ⟨kv, hkv, by simp [hk]⟩
  rw [h] at this
  cases this

theorem docKeys_setField_nodup (d : Doc) (k : String) (v : FVal)
    (h : (docKeys d).Nodup) : (docKeys (setField d k v)).Nodup := by
  unfold setField
  by_cases hp : d.any (fun kv => kv.1 == k) = true
  · rw [if_pos hp]
    have : docKeys (d.map (fun kv => bif kv.1 == k then (k, v) else kv)) =
        docKeys d := by
      unfold docKeys
      rw [List.map_map]
      refine List.map_congr_left ?_
      intro kv _
      simp only [Function.comp_apply]
      cases hkk : kv.1 == k
      · rfl
      · have hk : kv.1 = k := by simpa using hkk
        simp [hk]
    rw [this]
    exact h
  · rw [if_neg hp]
    have hnm : k ∉ docKeys d := by
      refine not_mem_keys_of_not_any d k ?_
      cases hb : d.any (fun kv => kv.1 == k)
      · rfl
      · exact absurd hb hp
    unfold docKeys
    rw [List.map_append]
    simp only [List.map_cons, List.map_nil]
    rw [List.nodup_append_comm]
    simp only [List.singleton_append, List.nodup_cons]
    exact ⟨hnm, h⟩

theorem normalizeIdOnly_lookup_ne (d : Doc) (k : String) (h : k ≠ "_id") :
    (normalizeIdOnly d).lookup k = d.lookup k :=
  lookup_setField_ne d "_id" k _ h

theorem normPostedAt_lookup_ne (d : Doc) (k : String) (h : k ≠ "posted_at") :
    (normPostedAt d).lookup k = d.lookup k := by
  unfold normPostedAt
  rcases hpa : d.lookup "posted_at" with _ | v
  · rfl
  · cases v with
    | vDt t => exact lookup_setField_ne d "posted_at" k _ h
    | vStr s => rfl
    | vOid s => rfl
    | vBool b => rfl
    | vNat n => rfl
    | vList l => rfl
    | vNull => rfl

theorem normalizeJobDoc_lookup_ne (d : Doc) (k : String)
    (h1 : k ≠ "_id") (h2 : k ≠ "posted_at") :
    (normalizeJobDoc d).lookup k = d.lookup k := by
  unfold normalizeJobDoc
  rw [normPostedAt_lookup_ne _ _ h2, normalizeIdOnly_lookup_ne _ _ h1]

theorem normalizeIdOnly_lookup_id (d : Doc) (v : FVal)
    (h : d.lookup "_id" = some v) :
    (normalizeIdOnly d).lookup "_id" = some (.vStr (pyStr v)) := by
  unfold normalizeIdOnly
  rw [h]
  exact lookup_setField_self d "_id" _

theorem normPostedAt_posted_not_dt (d : Doc) (t : Nat) :
    (normPostedAt d).lookup "posted_at" ≠ some (.vDt t) := by
  unfold normPostedAt
  rcases hpa : d.lookup "posted_at" with _ | v
  · simp [hpa]
  · cases v with
    | vDt t0 => simp [lookup_setField_self]
    | vStr s => simp [hpa]
    | vOid s => simp [hpa]
    | vBool b => simp [hpa]
    | vNat n => simp [hpa]
    | vList l => simp [hpa]
    | vNull => simp [hpa]

theorem mem_normalizeIdOnly_dt (d : Doc) (kv : String × FVal)
    (hnd : (docKeys d).Nodup) (hdt : d.all dtOnlyPosted = true)
    (hm : kv ∈ normalizeIdOnly d) :
    noDtEntry kv = true ∨
      ∃ t, kv.2 = .vDt t ∧ kv.1 = "posted_at" ∧
        d.lookup "posted_at" = some (.vDt t) := by
  unfold normalizeIdOnly at hm
  rcases mem_setField _ _ _ _ hm with he | ⟨hmd, hne⟩
  · left
    rcases hoid : d.lookup "_id" with _ | w
    · rw [hoid] at he
      rw [he]
      rfl
    · rw [hoid] at he
      rw [he]
      rfl
  · cases hv : kv.2 with
    | vDt t =>
        right
        have hk : kv.1 = "posted_at" := by
          have h2 := List.all_eq_true.mp hdt kv hmd
          unfold dtOnlyPosted at h2
          rw [hv] at h2
          simpa using h2
        have hl := lookup_mem_nodup d kv hnd hmd
        rw [hk, hv] at hl
        exact ⟨t, rfl, hk, hl⟩
    | vStr s => left; simp [noDtEntry, hv]
    | vOid s => left; simp [noDtEntry, hv]
    | vBool b => left; simp [noDtEntry, hv]
    | vNat n => left; simp [noDtEntry, hv]
    | vList l => left; simp [noDtEntry, hv]
    | vNull => left; simp [noDtEntry, hv]

theorem all_noDt_of_posted_not_dt (d : Doc)
    (hnd : (docKeys d).Nodup) (hdt : d.all dtOnlyPosted = true)
    (hpa : ∀ t, (normalizeIdOnly d).lookup "posted_at" ≠ some (.vDt t)) :
    (normalizeIdOnly d).all noDtEntry = true := by
  refine List.all_eq_true.mpr ?_
  intro kv hm
  rcases mem_normalizeIdOnly_dt d kv hnd hdt hm with hgood | ⟨t, hv, hk, hl⟩
  · exact hgood
  · exfalso
    refine hpa t ?_
    rw [normalizeIdOnly_lookup_ne d _ (by decide)]
    exact hl

theorem normalizeJobDoc_all_noDt (d : Doc) (hnd : (docKeys d).Nodup)
    (hdt : d.all dtOnlyPosted = true) :
    (normalizeJobDoc d).all noDtEntry = true := by
  unfold normalizeJobDoc normPostedAt
  rcases hpa : (normalizeIdOnly d).lookup "posted_at" with _ | v
  · exact all_noDt_of_posted_not_dt d hnd hdt (fun t => by simp [hpa])
  · cases v with
    | vDt t =>
        refine List.all_eq_true.mpr ?_
        intro kv hm
        rcases mem_setField _ _ _ _ hm with he | ⟨hm0, hne⟩
        · rw [he]; rfl
        · rcases mem_normalizeIdOnly_dt d kv hnd hdt hm0 with hgood | ⟨t0, hv, hk, hl⟩
          · exact hgood
          · exact absurd hk hne
    | vStr s => exact all_noDt_of_posted_not_dt d hnd hdt (fun t => by simp [hpa])
    | vOid s => exact all_noDt_of_posted_not_dt d hnd hdt (fun t => by simp [hpa])
    | vBool b => exact all_noDt_of_posted_not_dt d hnd hdt (fun t => by simp [hpa])
    | vNat n => exact all_noDt_of_posted_not_dt d hnd hdt (fun t => by simp [hpa])
    | vList l => exact all_noDt_of_posted_not_dt d hnd hdt (fun t => by simp [hpa])
    | vNull => exact all_noDt_of_posted_not_dt d hnd hdt (fun t => by simp [hpa])

theorem normalizeJobDoc_good (d : Doc) (h : jobWFb d = true) :
    goodDoc (normalizeJobDoc d) = true := by
  unfold jobWFb at h
  simp only [Bool.and_eq_true] at h
  obtain ⟨⟨hndb, hid⟩, hdt⟩ := h
  have hnd := of_decide_eq_true hndb
  unfold hasRawId at hid
  rcases hoid : d.lookup "_id" with _ | w
  · rw [hoid] at hid; cases hid
  · rw [hoid] at hid
    cases w with
    | vOid s =>
        unfold goodDoc
        rw [Bool.and_eq_true]
        constructor
        · have h1 : (normalizeJobDoc d).lookup "_id" = some (.vStr s) := by
            unfold normalizeJobDoc
            rw [normPostedAt_lookup_ne _ _ (by decide)]
            exact normalizeIdOnly_lookup_id d _ hoid
          rw [h1]
        · exact normalizeJobDoc_all_noDt d hnd hdt
    | vStr s => cases hid
    | vDt t => cases hid
    | vBool b => cases hid
    | vNat n => cases hid
    | vList l => cases hid
    | vNull => cases hid

theorem normalizeIdOnly_good (d : Doc) (h : flatWFb d = true) :
    goodDoc (normalizeIdOnly d) = true := by
  unfold flatWFb at h
  simp only [Bool.and_eq_true] at h
  obtain ⟨⟨hndb, hid⟩, hdt⟩ := h
  have hnd := of_decide_eq_true hndb
  unfold hasRawId at hid
  rcases hoid : d.lookup "_id" with _ | w
  · rw [hoid] at hid; cases hid
  · rw [hoid] at hid
    cases w with
    | vOid s =>
        unfold goodDoc
        rw [Bool.and_eq_true]
        constructor
        · rw [normalizeIdOnly_lookup_id d _ hoid]
        · refine List.all_eq_true.mpr ?_
          intro kv hm
          unfold normalizeIdOnly at hm
          rcases mem_setField _ _ _ _ hm with he | ⟨hmd, hne⟩
          · rw [hoid] at he
            rw [he]
            rfl
          · exact List.all_eq_true.mp hdt kv hmd
    | vStr s => cases hid
    | vDt t => cases hid
    | vBool b => cases hid
    | vNat n => cases hid
    | vList l => cases hid
    | vNull => cases hid

theorem normalizeIdOnly_keysNodup (d : Doc) (h : (docKeys d).Nodup) :
    (docKeys (normalizeIdOnly d)).Nodup :=
  docKeys_setField_nodup d "_id" _ h

theorem normPostedAt_keysNodup (d : Doc) (h : (docKeys d).Nodup) :
    (docKeys (normPostedAt d)).Nodup := by
  unfold normPostedAt
  rcases hpa : d.lookup "posted_at" with _ | v
  · exact h
  · cases v with
    | vDt t => exact docKeys_setField_nodup d "posted_at" _ h
    | vStr s => exact h
    | vOid s => exact h
    | vBool b => exact h
    | vNat n => exact h
    | vList l => exact h
    | vNull => exact h

theorem normalizeIdOnly_fixpoint (e : Doc) (hnd : (docKeys e).Nodup)
    (s : String) (h : e.lookup "_id" = some (.vStr s)) :
    normalizeIdOnly e = e := by
  unfold normalizeIdOnly
  rw [h]
  exact setField_eq_of_lookup e "_id" (.vStr s) hnd h

theorem normPostedAt_fixpoint (e : Doc)
    (h : ∀ t, e.lookup "posted_at" ≠ some (.vDt t)) :
    normPostedAt e = e := by
  unfold normPostedAt
  rcases hpa : e.lookup "posted_at" with _ | v
  · rfl
  · cases v with
    | vDt t => exact absurd hpa (h t)
    | vStr s => rfl
    | vOid s => rfl
    | vBool b => rfl
    | vNat n => rfl
    | vList l => rfl
    | vNull => rfl

theorem normalizeIdOnly_idem (d : Doc) (hnd : (docKeys d).Nodup)
    (hid : (d.lookup "_id").isSome = true) :
    normalizeIdOnly (normalizeIdOnly d) = normalizeIdOnly d := by
  rcases ho : d.lookup "_id" with _ | v
  · rw [ho] at hid; cases hid
  · exact normalizeIdOnly_fixpoint (normalizeIdOnly d)
      (normalizeIdOnly_keysNodup d hnd) (pyStr v)
      (normalizeIdOnly_lookup_id d v ho)

theorem normalizeJobDoc_idem (d : Doc) (hnd : (docKeys d).Nodup)
    (hid : (d.lookup "_id").isSome = true) :
    normalizeJobDoc (normalizeJobDoc d) = normalizeJobDoc d := by
  rcases ho : d.lookup "_id" with _ | v
  · rw [ho] at hid; cases hid
  · have hnd1 : (docKeys (normalizeJobDoc d)).Nodup :=
      normPostedAt_keysNodup _ (normalizeIdOnly_keysNodup d hnd)
    have hid1 : (normalizeJobDoc d).lookup "_id" = some (.vStr (pyStr v)) := by
      unfold normalizeJobDoc
      rw [normPostedAt_lookup_ne _ _ (by decide)]
      exact normalizeIdOnly_lookup_id d v ho
    have hfix1 : normalizeIdOnly (normalizeJobDoc d) = normalizeJobDoc d :=
      normalizeIdOnly_fixpoint _ hnd1 _ hid1
    show normPostedAt (normalizeIdOnly (normalizeJobDoc d)) = normalizeJobDoc d
    rw [hfix1]
    show normPostedAt (normPostedAt (normalizeIdOnly d)) = normalizeJobDoc d
    exact normPostedAt_fixpoint _ (normPostedAt_posted_not_dt _)

theorem matchesFilter_append (d : Doc) (f1 f2 : MongoFilter) :
    matchesFilter d (f1 ++ f2) = (matchesFilter d f1 && matchesFilter d f2) := by
  simp [matchesFilter]

theorem matchesFilter_singleton (d : Doc) (e : MEntry) :
    matchesFilter d [e] = evalEntry d e := by
  simp [matchesFilter]

@[simp] theorem lookup_jobToDoc_title (j : JobRec) :
    (jobToDoc j).lookup "title" = some (.vStr j.title) := by
  simp [jobToDoc, List.lookup_cons]

@[simp] theorem lookup_jobToDoc_company_name (j : JobRec) :
    (jobToDoc j).lookup "company_name" = some (.vStr j.company_name) := by
  simp [jobToDoc, List.lookup_cons]

@[simp] theorem lookup_jobToDoc_location (j : JobRec) :
    (jobToDoc j).lookup "location" = some (.vStr j.location) := by
  simp [jobToDoc, List.lookup_cons]

@[simp] theorem lookup_jobToDoc_description (j : JobRec) :
    (jobToDoc j).lookup "description" = some (.vStr j.description) := by
  simp [jobToDoc, List.lookup_cons]

@[simp] theorem lookup_jobToDoc_tags (j : JobRec) :
    (jobToDoc j).lookup "tags" = some (.vList j.tags) := by
  simp [jobToDoc, List.lookup_cons]

@[simp] theorem lookup_jobToDoc_is_active (j : JobRec) :
    (jobToDoc j).lookup "is_active" = some (.vBool j.is_active) := by
  simp [jobToDoc, List.lookup_cons]

theorem evalEntry_isActive (j : JobRec) :
    evalEntry (jobToDoc j) (.field "is_active" (.sBool true)) = j.is_active := by
  simp [evalEntry, evalSCond]

theorem evalEntry_location (j : JobRec) (l : String) :
    evalEntry (jobToDoc j) (.field "location" (.sRegexCI l)) =
      ciContains j.location l := by
  simp [evalEntry, evalSCond]

theorem evalEntry_tagIn (j : JobRec) (t : String) :
    (evalEntry (jobToDoc j) (.field "tags" (.sIn [t])) = true) ↔ t ∈ j.tags := by
  simp [evalEntry, evalSCond, List.any_eq_true]

theorem evalEntry_qor (j : JobRec) (q : String) :
    evalEntry (jobToDoc j)
      (.orC [("title", .sRegexCI q), ("company_name", .sRegexCI q),
             ("description", .sRegexCI q), ("tags", .sRegexCI q)]) =
      (ciContains j.title q || ciContains j.company_name q ||
       ciContains j.description q || j.tags.any (fun s => ciContains s q)) := by
  simp [evalEntry, evalSCond, Bool.or_assoc]

theorem isActive_mem_build (q loc tag : Option String) :
    (MEntry.field "is_active" (.sBool true)) ∈ buildJobsFilter q loc tag := by
  unfold buildJobsFilter
  exact List.mem_append_left _ (List.mem_append_left _
    (List.mem_append_left _ (List.mem_singleton_self _)))

/-- C1: FALSIFIED BY THE CODE — in `get_job`, the `HTTPException(404, "Job
not found")` raised for a well-formed but unassigned id sits inside the
`try` block, and FastAPI's `HTTPException` is a subclass of `Exception`, so
`except Exception:` catches it and re-raises 400 "Invalid job id". This
theorem evaluates the handler at such an id (24 hex characters, assigned to
no stored job): the response is 400, where the spec demands 404. A
malformed id also yields 400, as specified — the two failure classes are
collapsed, not distinct. -/
theorem c1_wellformed_absent_id_yields_400 :
    (parseObjectId "ffffffffffffffffffffffff").isSome = true ∧
    find_one_by_oid sampleDB.job "ffffffffffffffffffffffff" = none ∧
    get_job sampleSt "ffffffffffffffffffffffff" = .error ⟨400, "Invalid job id"⟩ ∧
    parseObjectId "not-a-valid-objectid!!" = none ∧
    get_job sampleSt "not-a-valid-objectid!!" = .error ⟨400, "Invalid job id"⟩ := by
  refine ⟨?_, ?_, ?_, ?_, ?_⟩ <;> decide

/-- C2: FALSIFIED BY THE CODE — in `submit_application`, the 404 raised
when the referenced job does not exist is caught by the same
`except Exception:` and surfaced as 400 "Invalid job id". The no-insert
half of the claim does hold: on both failure paths the returned state is
the unchanged input state. This theorem evaluates the handler on an
application whose `job_id` is well formed (24 hex characters) but assigned
to no stored job, and on one whose `job_id` is malformed. -/
theorem c2_absent_job_yields_400_no_insert :
    find_one_by_oid sampleDB.job sampleApplication.job_id = none ∧
    submit_application sampleSt sampleApplication =
      (.error ⟨400, "Invalid job id"⟩, sampleSt) ∧
    submit_application sampleSt { sampleApplication with job_id := "bad" } =
      (.error ⟨400, "Invalid job id"⟩, sampleSt) := by
  refine ⟨?_, ?_, ?_⟩ <;> decide

/-- C9: every public data operation (GET /jobs, POST /jobs, GET /jobs/id,
POST /applications, GET /applications, POST /companies, GET /companies)
checks the connection first and fails fast with the fixed 500 "Database not
configured" error when the storage connection is unconfigured, touching no
storage (the returned state is unchanged for the writing handlers). -/
theorem c9_fail_fast_unconfigured :
    ∀ st : AppState, st.db = none →
      dbNotConfigured = ⟨500, "Database not configured"⟩ ∧
      (∀ q loc tag lim, list_jobs st q loc tag lim = .error dbNotConfigured) ∧
      (∀ jobData now, create_job st jobData now = (.error dbNotConfigured, st)) ∧
      (∀ id, get_job st id = .error dbNotConfigured) ∧
      (∀ a, submit_application st a = (.error dbNotConfigured, st)) ∧
      (∀ jid lim, list_applications st jid lim = .error dbNotConfigured) ∧
      (∀ cd, create_company st cd = (.error dbNotConfigured, st)) ∧
      (∀ lim, list_companies st lim = .error dbNotConfigured) := by
  intro st h
  refine ⟨rfl, ?_, ?_, ?_, ?_, ?_, ?_, ?_⟩ <;> intros <;>
    simp [list_jobs, create_job, get_job, submit_application,
      list_applications, create_company, list_companies, h]

/-- Witness for C9 at the concrete unconfigured state. -/
theorem c9_fail_fast_unconfigured_witness :
    list_jobs stNone none none none 50 = .error dbNotConfigured ∧
    get_job stNone "ffffffffffffffffffffffff" = .error dbNotConfigured :=
  ⟨(c9_fail_fast_unconfigured stNone rfl).2.1 none none none 50,
   (c9_fail_fast_unconfigured stNone rfl).2.2.2.1 "ffffffffffffffffffffffff"⟩

/-- C10: an empty-string `q`, `location` or `tag` on GET /jobs (and an
empty-string `job_id` on GET /applications) is falsy in Python, so no
filter clause is added and the handler result is identical to the one with
the parameter absent. -/
theorem c10_empty_string_params_ignored :
    (∀ st loc tag lim,
      list_jobs st (some "") loc tag lim = list_jobs st none loc tag lim) ∧
    (∀ st q tag lim,
      list_jobs st q (some "") tag lim = list_jobs st q none tag lim) ∧
    (∀ st q loc lim,
      list_jobs st q loc (some "") lim = list_jobs st q loc none lim) ∧
    (∀ st lim,
      list_applications st (some "") lim = list_applications st none lim) := by
  have hq : qSeg (some "") = qSeg none := by decide
  have hl : locSeg (some "") = locSeg none := by decide
  have ht : tagSeg (some "") = tagSeg none := by decide
  have ha : buildApplicationsFilter (some "") = buildApplicationsFilter none := by
    decide
  refine ⟨?_, ?_, ?_, ?_⟩
  · intro st loc tag lim
    unfold list_jobs
    cases st.db with
    | none => rfl
    | some db => unfold buildJobsFilter; rw [hq]
  · intro st q tag lim
    unfold list_jobs
    cases st.db with
    | none => rfl
    | some db => unfold buildJobsFilter; rw [hl]
  · intro st q loc lim
    unfold list_jobs
    cases st.db with
    | none => rfl
    | some db => unfold buildJobsFilter; rw [ht]
  · intro st lim
    unfold list_applications
    cases st.db with
    | none => rfl
    | some db => rw [ha]

/-- C8: for every storage state — unconfigured, configured and healthy, or
configured with a raising collection listing — GET /test returns a success
(HTTP 200) response whose fields describe the state; it never surfaces an
error. -/
theorem c8_test_never_non200 :
    ∀ (st : AppState) (envUrl envName : Bool),
      exceptOk (test_database st envUrl envName) = true ∧
      (testRespOf (test_database st envUrl envName)).backend = "✅ Running" ∧
      (st.db = none →
        (testRespOf (test_database st envUrl envName)).database =
          "⚠️  Available but not initialized") ∧
      (∀ db cols, st.db = some db → db.listCollectionsResult = .ok cols →
        (testRespOf (test_database st envUrl envName)).database =
          "✅ Connected & Working") ∧
      (∀ db e, st.db = some db → db.listCollectionsResult = .error e →
        (testRespOf (test_database st envUrl envName)).database =
          "⚠️  Connected but Error: " ++ String.mk (e.data.take 50)) := by
  intro st u n
  rcases hst : st.db with _ | db
  · refine ⟨?_, ?_, ?_, ?_, ?_⟩
    · simp [test_database, hst, exceptOk]
    · simp [test_database, hst, testRespOf]
    · intro _
      simp [test_database, hst, testRespOf]
    · intro db cols hdb hlc
      cases hdb
    · intro db e hdb hlc
      cases hdb
  · refine ⟨?_, ?_, ?_, ?_, ?_⟩
    · rcases hlc : db.listCollectionsResult with e | cols <;>
        simp [test_database, hst, hlc, exceptOk]
    · rcases hlc : db.listCollectionsResult with e | cols <;>
        simp [test_database, hst, hlc, testRespOf]
    · intro hnone
      cases hnone
    · intro db' cols hdb hlc
      injection hdb with hdb'
      subst hdb'
      simp [test_database, hst, hlc, testRespOf]
    · intro db' e hdb hlc
      injection hdb with hdb'
      subst hdb'
      simp [test_database, hst, hlc, testRespOf]

/-- Witness for C8 at the concrete unconfigured state and at the concrete
state whose collection listing raises. -/
theorem c8_test_never_non200_witness :
    exceptOk (test_database stNone true false) = true ∧
    (testRespOf (test_database stNone true false)).database =
      "⚠️  Available but not initialized" ∧
    (testRespOf (test_database stErrList false true)).database =
      "⚠️  Connected but Error: " ++ String.mk ("boom".data.take 50) :=
  ⟨(c8_test_never_non200 stNone true false).1,
   (c8_test_never_non200 stNone true false).2.2.1 rfl,
   (c8_test_never_non200 stErrList false true).2.2.2.2 errDB "boom" rfl rfl⟩

/-- C4: the filter GET /jobs builds always contains the entry
`is_active = true` — no combination of the caller-supplied `q`, `location`,
`tag` can remove it — and consequently every document the listing endpoint
returns carries `is_active = true`. -/
theorem c4_is_active_always :
    ∀ (q loc tag : Option String),
      (MEntry.field "is_active" (.sBool true)) ∈ buildJobsFilter q loc tag ∧
      ∀ (st : AppState) (limit : Nat) (out : List Doc),
        list_jobs st q loc tag limit = .ok out →
        ∀ d ∈ out, d.lookup "is_active" = some (.vBool true) := by
  intro q loc tag
  refine ⟨isActive_mem_build q loc tag, ?_⟩
  intro st lim out hok d hd
  unfold list_jobs at hok
  rcases hst : st.db with _ | db
  · rw [hst] at hok
    cases hok
  · rw [hst] at hok
    injection hok with hok'
    subst hok'
    rcases List.mem_map.mp hd with ⟨d0, hd0, rfl⟩
    have hmem_f : d0 ∈ db.job.filter
        (fun d => matchesFilter d (buildJobsFilter q loc tag)) :=
      List.mem_of_mem_take (by simpa [get_documents] using hd0)
    have hmatch0 := List.of_mem_filter hmem_f
    have hmatch : matchesFilter d0 (buildJobsFilter q loc tag) = true := hmatch0
    have hentry : evalSCond d0 "is_active" (.sBool true) = true := by
      have h0 := List.all_eq_true.mp hmatch _ (isActive_mem_build q loc tag)
      simpa only [evalEntry] using h0
    rw [normalizeJobDoc_lookup_ne d0 _ (by decide) (by decide)]
    unfold evalSCond at hentry
    rcases hl : d0.lookup "is_active" with _ | w
    · rw [hl] at hentry
      cases hentry
    · rw [hl] at hentry
      cases w with
      | vBool b =>
          have hb : b = true := by simpa using hentry
          rw [hb]
      | vStr s => simp at hentry
      | vOid s => simp at hentry
      | vDt t => simp at hentry
      | vNat n0 => simp at hentry
      | vList l => simp at hentry
      | vNull => simp at hentry

theorem qSeg_some_ne (q : String) (h : q ≠ "") :
    qSeg (some q) =
      [.orC [("title", .sRegexCI q), ("company_name", .sRegexCI q),
             ("description", .sRegexCI q), ("tags", .sRegexCI q)]] := by
  simp [qSeg, h]

theorem locSeg_some_ne (l : String) (h : l ≠ "") :
    locSeg (some l) = [.field "location" (.sRegexCI l)] := by
  simp [locSeg, h]

theorem tagSeg_some_ne (t : String) (h : t ≠ "") :
    tagSeg (some t) = [.field "tags" (.sIn [t])] := by
  simp [tagSeg, h]

/-- C5: with `q` supplied (metacharacter-free, so `$regex` plus option `i`
means case-insensitive substring), a job passes the `q` clause exactly when
title, company name, description or at least one tag contains `q`
case-insensitively, and the whole filter conjoins this disjunctive clause
with every other supplied clause. -/
theorem c5_q_or_semantics :
    ∀ (j : JobRec) (q : String) (loc tag : Option String),
      q ≠ "" → noRegexMeta q = true →
      (matchesFilter (jobToDoc j) (buildJobsFilter (some q) loc tag) = true ↔
        ((ciContains j.title q = true ∨ ciContains j.company_name q = true ∨
          ciContains j.description q = true ∨
          ∃ s ∈ j.tags, ciContains s q = true) ∧
         matchesFilter (jobToDoc j) (buildJobsFilter none loc tag) = true)) := by
  intro j q loc tag hq _hmeta
  have hsplit : matchesFilter (jobToDoc j) (buildJobsFilter (some q) loc tag) =
      (matchesFilter (jobToDoc j) (buildJobsFilter none loc tag) &&
       evalEntry (jobToDoc j)
         (.orC [("title", .sRegexCI q), ("company_name", .sRegexCI q),
                ("description", .sRegexCI q), ("tags", .sRegexCI q)])) := by
    unfold buildJobsFilter
    rw [qSeg_some_ne q hq, show qSeg none = [] from rfl, List.append_nil,
        matchesFilter_append, matchesFilter_singleton]
  rw [hsplit, evalEntry_qor]
  simp only [Bool.and_eq_true, Bool.or_eq_true, List.any_eq_true]
  constructor
  · rintro ⟨hm, hor⟩
    exact ⟨by tauto, hm⟩
  · rintro ⟨hor, hm⟩
    exact ⟨hm, by tauto⟩

/-- Witness for C5: the sample job matches `q = "engineer"` through its
title, case-insensitively. -/
theorem c5_q_or_semantics_witness :
    matchesFilter (jobToDoc sampleJobRec)
      (buildJobsFilter (some "engineer") none none) = true :=
  (c5_q_or_semantics sampleJobRec "engineer" none none (by decide)
    (by decide)).mpr ⟨Or.inl (by decide), by decide⟩

/-- C6: with `tag` supplied, a job passes the tag clause exactly when its
tags list contains an element equal to the supplied string — full-element,
case-sensitive equality, independent of the substring semantics the `q`
clause applies to tags. -/
theorem c6_tag_exact :
    ∀ (j : JobRec) (t : String) (q loc : Option String),
      t ≠ "" →
      (matchesFilter (jobToDoc j) (buildJobsFilter q loc (some t)) = true ↔
        (t ∈ j.tags ∧
         matchesFilter (jobToDoc j) (buildJobsFilter q loc none) = true)) := by
  intro j t q loc ht
  unfold buildJobsFilter
  rw [tagSeg_some_ne t ht, show tagSeg none = ([] : MongoFilter) from rfl,
      List.append_nil]
  simp only [matchesFilter_append, matchesFilter_singleton, Bool.and_eq_true,
    evalEntry_tagIn]
  tauto

/-- Witness for C6: the sample job carries the exact tag `"python"`. -/
theorem c6_tag_exact_witness :
    matchesFilter (jobToDoc sampleJobRec)
      (buildJobsFilter none none (some "python")) = true :=
  (c6_tag_exact sampleJobRec "python" none none (by decide)).mpr
    ⟨by decide, by decide⟩

/-- C7: with `location` supplied (metacharacter-free), a job passes the
location clause exactly when its location field contains the supplied
string as a case-insensitive substring (not anchored, not tokenized). -/
theorem c7_location_substring :
    ∀ (j : JobRec) (l : String) (q tag : Option String),
      l ≠ "" → noRegexMeta l = true →
      (matchesFilter (jobToDoc j) (buildJobsFilter q (some l) tag) = true ↔
        (ciContains j.location l = true ∧
         matchesFilter (jobToDoc j) (buildJobsFilter q none tag) = true)) := by
  intro j l q tag hl _hmeta
  unfold buildJobsFilter
  rw [locSeg_some_ne l hl, show locSeg none = ([] : MongoFilter) from rfl,
      List.append_nil]
  simp only [matchesFilter_append, matchesFilter_singleton, Bool.and_eq_true,
    evalEntry_location]
  tauto

/-- Witness for C7: the sample job in "Berlin, Germany" matches
`location = "berlin"` case-insensitively. -/
theorem c7_location_substring_witness :
    matchesFilter (jobToDoc sampleJobRec)
      (buildJobsFilter none (some "berlin") none) = true :=
  (c7_location_substring sampleJobRec "berlin" none none (by decide)
    (by decide)).mpr ⟨by decide, by decide⟩

theorem jobWFb_parts (d : Doc) (h : jobWFb d = true) :
    (docKeys d).Nodup ∧ (d.lookup "_id").isSome = true ∧
      d.all dtOnlyPosted = true := by
  unfold jobWFb hasRawId at h
  simp only [Bool.and_eq_true] at h
  refine ⟨of_decide_eq_true h.1.1, ?_, h.2⟩
  rcases ho : d.lookup "_id" with _ | w
  · rw [ho] at h
    rcases h with ⟨⟨_, h12⟩, _⟩
    cases h12
  · simp

theorem flatWFb_parts (d : Doc) (h : flatWFb d = true) :
    (docKeys d).Nodup ∧ (d.lookup "_id").isSome = true ∧
      d.all noDtEntry = true := by
  unfold flatWFb hasRawId at h
  simp only [Bool.and_eq_true] at h
  refine ⟨of_decide_eq_true h.1.1, ?_, h.2⟩
  rcases ho : d.lookup "_id" with _ | w
  · rw [ho] at h
    rcases h with ⟨⟨_, h12⟩, _⟩
    cases h12
  · simp

/-- C3: over a well-formed store (unique keys per document, a raw
store-assigned `_id`, raw timestamps only where the schema has a
`datetime` field), every document any endpoint returns — jobs list, job
detail, applications list, companies list — carries `_id` as a string
(never the raw identifier) and no raw timestamp (every timestamp is
rendered as text), and the per-document normalization is idempotent, so
applying it the one time each endpoint does is also the result of applying
it any number of times. -/
theorem c3_normalization :
    ∀ (st : AppState) (db : DBConn), st.db = some db → storeWF db = true →
      (∀ q loc tag lim out, list_jobs st q loc tag lim = .ok out →
        ∀ d ∈ out, goodDoc d = true) ∧
      (∀ id doc, get_job st id = .ok doc → goodDoc doc = true) ∧
      (∀ jid lim out, list_applications st jid lim = .ok out →
        ∀ d ∈ out, goodDoc d = true) ∧
      (∀ lim out, list_companies st lim = .ok out →
        ∀ d ∈ out, goodDoc d = true) ∧
      (∀ d, jobWFb d = true →
        normalizeJobDoc (normalizeJobDoc d) = normalizeJobDoc d) ∧
      (∀ d, flatWFb d = true →
        normalizeIdOnly (normalizeIdOnly d) = normalizeIdOnly d) := by
  intro st db hst hwf
  simp only [storeWF, Bool.and_eq_true] at hwf
  obtain ⟨⟨hjobb, happb⟩, hcompb⟩ := hwf
  have hjob : ∀ d ∈ db.job, jobWFb d = true :=
    fun d hd => List.all_eq_true.mp hjobb d hd
  have happ : ∀ d ∈ db.application, flatWFb d = true :=
    fun d hd => List.all_eq_true.mp happb d hd
  have hcomp : ∀ d ∈ db.company, flatWFb d = true :=
    fun d hd => List.all_eq_true.mp hcompb d hd
  refine ⟨?_, ?_, ?_, ?_, ?_, ?_⟩
  · intro q loc tag lim out hok d hd
    unfold list_jobs at hok
    rw [hst] at hok
    injection hok with hok'
    subst hok'
    rcases List.mem_map.mp hd with ⟨d0, hd0, rfl⟩
    have hd0' : d0 ∈ db.job :=
      List.mem_of_mem_filter
        (List.mem_of_mem_take (by simpa [get_documents] using hd0))
    exact normalizeJobDoc_good d0 (hjob d0 hd0')
  · intro id doc hok
    rcases hpo : parseObjectId id with _ | oid
    · simp [get_job, get_job_try, hst, hpo] at hok
    · rcases hfo : find_one_by_oid db.job oid with _ | d2
      · simp [get_job, get_job_try, hst, hpo, hfo] at hok
      · simp [get_job, get_job_try, hst, hpo, hfo] at hok
        subst hok
        have hd2 : d2 ∈ db.job := List.mem_of_find?_eq_some hfo
        exact normalizeJobDoc_good d2 (hjob d2 hd2)
  · intro jid lim out hok d hd
    unfold list_applications at hok
    rw [hst] at hok
    injection hok with hok'
    subst hok'
    rcases List.mem_map.mp hd with ⟨d0, hd0, rfl⟩
    have hd0' : d0 ∈ db.application :=
      List.mem_of_mem_filter
        (List.mem_of_mem_take (by simpa [get_documents] using hd0))
    exact normalizeIdOnly_good d0 (happ d0 hd0')
  · intro lim out hok d hd
    unfold list_companies at hok
    rw [hst] at hok
    injection hok with hok'
    subst hok'
    rcases List.mem_map.mp hd with ⟨d0, hd0, rfl⟩
    have hd0' : d0 ∈ db.company :=
      List.mem_of_mem_filter
        (List.mem_of_mem_take (by simpa [get_documents] using hd0))
    exact normalizeIdOnly_good d0 (hcomp d0 hd0')
  · intro d hwfd
    obtain ⟨hnd, hid, _⟩ := jobWFb_parts d hwfd
    exact normalizeJobDoc_idem d hnd hid
  · intro d hwfd
    obtain ⟨hnd, hid, _⟩ := flatWFb_parts d hwfd
    exact normalizeIdOnly_idem d hnd hid

/-- Witness for C3 at the concrete store: the returned sample job document
is fully normalized. -/
theorem c3_normalization_witness :
    goodDoc (normalizeJobDoc sampleJobDoc) = true :=
  (c3_normalization sampleSt sampleDB rfl (by decide)).1 none none none 50
    ((get_documents sampleDB.job (buildJobsFilter none none none) 50).map
      normalizeJobDoc)
    rfl (normalizeJobDoc sampleJobDoc) (by decide)

/-- Witness for C4 at the concrete store: the sample job is returned and
carries `is_active = true`. -/
theorem c4_is_active_always_witness :
    (MEntry.field "is_active" (.sBool true)) ∈ buildJobsFilter none none none ∧
    (normalizeJobDoc sampleJobDoc).lookup "is_active" = some (.vBool true) :=
  ⟨(c4_is_active_always none none none).1,
   (c4_is_active_always none none none).2 sampleSt 50
     ((get_documents sampleDB.job (buildJobsFilter none none none) 50).map
       normalizeJobDoc)
     rfl (normalizeJobDoc sampleJobDoc) (by decide)⟩

end JobPortal
